import Mathlib

set_option maxHeartbeats 1000000
set_option synthInstance.maxSize 2000
set_option synthInstance.maxHeartbeats 1000000

unseal Rat.mul Rat.add Rat.inv Rat.sub

/-!
Shallow embedding of `modm-delay/plot_delays.py` (the benchmark-table
parsing and plotting script, present in two copies in the repository).

Modelling conventions:
* Python strings are `List Char` (`Str`); Python ints are `Int`.
* Python float arithmetic (`1e9`, `1e6`, `/`, `min`, `max`) on the small
  exact values used by the script is modelled by exact rationals `ℚ`.
* An uncaught Python exception (IndexError, ValueError, ZeroDivisionError)
  is modelled by `Option`: `none` means the script terminates with an error.
* Python dicts (insertion ordered) are association lists updated in place.
-/

/-- Python strings are modelled as lists of characters. -/
abbrev Str := List Char

/-- Python whitespace characters recognised by `str.strip()` (the ASCII
whitespace set; the data files contain no unicode whitespace). -/
def isPySpace (c : Char) : Bool :=
  c = ' ' || c = '\t' || c = '\n' || c = '\r' || c = Char.ofNat 11 || c = Char.ofNat 12

/-- Python `str.strip()`: remove leading and trailing whitespace. -/
def pyStrip (s : Str) : Str :=
  ((s.dropWhile isPySpace).reverse.dropWhile isPySpace).reverse

/-- Python `str.rstrip(">")` as used on data lines: remove trailing `>`. -/
def rstripGt (s : Str) : Str :=
  (s.reverse.dropWhile (fun c => c = '>')).reverse

/-- Worker for `splitlines`: `cur` is the reversed current line. Line
terminators modelled: `\n`, `\r`, `\r\n` (the ones occurring in text data
files). As in Python, no trailing empty line is produced. -/
def splitlinesAux : Str → Str → List Str
  | cur, '\r' :: '\n' :: rest => cur.reverse :: splitlinesAux [] rest
  | cur, '\r' :: rest => cur.reverse :: splitlinesAux [] rest
  | cur, '\n' :: rest => cur.reverse :: splitlinesAux [] rest
  | cur, c :: rest => splitlinesAux (c :: cur) rest
  | cur, [] => if cur.isEmpty then [] else [cur.reverse]

/-- Python `str.splitlines()`. -/
def splitlines (s : Str) : List Str :=
  splitlinesAux [] s

/-- Cons a character onto the first piece of a split result. -/
def consCur (c : Char) : List Str → List Str
  | [] => [[c]]
  | p :: ps => (c :: p) :: ps

/-- Python `str.split(sep)` for a three-character separator `[s1, s2, s3]`
(the script uses `" = "` and `" | "`): split at each leftmost
non-overlapping occurrence. -/
def pySplit3 (s1 s2 s3 : Char) : Str → List Str
  | c1 :: c2 :: c3 :: rest =>
    if c1 = s1 && c2 = s2 && c3 = s3 then [] :: pySplit3 s1 s2 s3 rest
    else consCur c1 (pySplit3 s1 s2 s3 (c2 :: c3 :: rest))
  | c1 :: rest => consCur c1 (pySplit3 s1 s2 s3 rest)
  | [] => [[]]

/-- Python `str.split(sep)` for a two-character separator `[s1, s2]`
(the script uses `"\n\n"` to separate tables). -/
def pySplit2 (s1 s2 : Char) : Str → List Str
  | c1 :: c2 :: rest =>
    if c1 = s1 && c2 = s2 then [] :: pySplit2 s1 s2 rest
    else consCur c1 (pySplit2 s1 s2 (c2 :: rest))
  | c1 :: rest => consCur c1 (pySplit2 s1 s2 rest)
  | [] => [[]]

/-- Decimal digit test. -/
def isDigitCh (c : Char) : Bool :=
  '0' ≤ c && c ≤ '9'

/-- Numeric value of a digit string. -/
def digitsVal (l : Str) : Nat :=
  l.foldl (fun acc c => acc * 10 + (c.toNat - '0'.toNat)) 0

/-- Parse a nonempty all-digit string. -/
def parseDigits (l : Str) : Option Nat :=
  if !l.isEmpty && l.all isDigitCh then some (digitsVal l) else none

/-- Python `int(s)` on a decimal string: strip whitespace, optional sign,
then decimal digits; `none` models the `ValueError` raised otherwise.
(Python additionally accepts underscore digit separators and unicode
digits, which these data files do not use.) -/
def pyInt (s : Str) : Option Int :=
  match pyStrip s with
  | '+' :: rest => (parseDigits rest).map (fun n => (n : Int))
  | '-' :: rest => (parseDigits rest).map (fun n => -(n : Int))
  | l => (parseDigits l).map (fun n => (n : Int))

/-- One parsed measurement tuple: (input delay, measured delay, raw cycles),
built on `plot_delays.py` line 28. -/
abbrev Row := Int × ℚ × Int

/-- Map a fallible function over a list, failing on the first error. This
models a Python loop or comprehension that raises on the first bad element. -/
def optMap {α β : Type} (f : α → Option β) : List α → Option (List β)
  | [] => some []
  | a :: l =>
    match f a with
    | none => none
    | some b =>
      match optMap f l with
      | none => none
      | some bs => some (b :: bs)

/-- The helper `conv` of `parse_table` (lines 23-24): converts a raw cycle
count to a time value, `cycles * 1e9 / clock` when the unit is `"ns"` and
`cycles * 1e6 / clock` otherwise. The `delay` argument is ignored, exactly
as in the source. `none` models the `ZeroDivisionError` when `clock = 0`. -/
def conv (dtype : Str) (clock : Int) (delay cycles : Int) : Option ℚ :=
  if clock = 0 then none
  else some ((cycles : ℚ) * (if dtype = ['n', 's'] then 1000000000 else 1000000) / (clock : ℚ))

/-- Fields of one data line (line 27): strip trailing `>` characters from
the line, then split on `" | "`. -/
def lineFields (line : Str) : List Str :=
  pySplit3 ' ' '|' ' ' (rstripGt line)

/-- Builds the tuple of one data line from its field list (lines 27-28):
every field must parse as an integer, the line must have a third field,
and the tuple is (field 0, converted field 2, field 2). -/
def rowOfFields (dtype : Str) (clock : Int) (fields : List Str) : Option Row :=
  match optMap pyInt fields with
  | none => none
  | some vals =>
    match vals[0]? with
    | none => none
    | some v0 =>
      match vals[2]? with
      | none => none
      | some v2 =>
        match conv dtype clock v0 v2 with
        | none => none
        | some m => some (v0, m, v2)

/-- Parse one data line (lines 27-28). -/
def parseRow (dtype : Str) (clock : Int) (line : Str) : Option Row :=
  rowOfFields dtype clock (lineFields line)

/-- Embedding of `parse_table` (lines 19-30): strip and split the table
text into lines, read the clock from the first line after `" = "`, read
the unit from characters 12-14 of the first line, and parse one tuple per
line from the fourth line onward. -/
def parse_table (text : Str) : Option (Str × Int × List Row) :=
  match (splitlines (pyStrip text))[0]? with
  | none => none
  | some line0 =>
    match (pySplit3 ' ' '=' ' ' line0)[1]? with
    | none => none
    | some clockStr =>
      match pyInt clockStr with
      | none => none
      | some clock =>
        match optMap (parseRow ((line0.drop 12).take 2) clock) ((splitlines (pyStrip text)).drop 3) with
        | none => none
        | some rows => some ((line0.drop 12).take 2, clock, rows)

/-- Lines of a table text, as `parse_table` computes them (line 20). -/
def tableLines (text : Str) : List Str :=
  splitlines (pyStrip text)

/-- Unit declared by a table's header line: the slice `[12:14]` of the
first line (line 22 of the script). -/
def headerDtype (text : Str) : Str :=
  (((tableLines text).getD 0 []).drop 12).take 2

/-- Clock declared by a table's header line: the chunk after the first
`" = "`, parsed as an integer (line 21 of the script). -/
def headerClock (text : Str) : Option Int :=
  ((pySplit3 ' ' '=' ' ' ((tableLines text).getD 0 []))[1]?).bind pyInt

theorem optMap_forall2 {α β : Type} {f : α → Option β} :
    ∀ {l : List α} {ys : List β}, optMap f l = some ys →
      List.Forall₂ (fun x y => f x = some y) l ys := by
  intro l
  induction l with
  | nil =>
    intro ys h
    simp [optMap] at h
    subst h
    exact List.Forall₂.nil
  | cons a l ih =>
    intro ys h
    cases hfa : f a with
    | none => simp [optMap, hfa] at h
    | some b =>
      cases hrest : optMap f l with
      | none => simp [optMap, hfa, hrest] at h
      | some bs =>
        simp [optMap, hfa, hrest] at h
        subst h
        exact List.Forall₂.cons hfa (ih hrest)

theorem forall2_mem_right {α β : Type} {R : α → β → Prop} {l : List α} {ys : List β}
    (h : List.Forall₂ R l ys) : ∀ y ∈ ys, ∃ x ∈ l, R x y := by
  induction h with
  | nil => intro y hy; cases hy
  | cons hab _ ih =>
    intro y hy
    rcases List.mem_cons.mp hy with rfl | hmem
    · exact ⟨_, List.mem_cons_self _ _, hab⟩
    · rcases ih y hmem with ⟨x, hx, hfx⟩
      exact ⟨x, List.mem_cons_of_mem _ hx, hfx⟩

theorem optMap_mem {α β : Type} {f : α → Option β} {l : List α} {ys : List β}
    (h : optMap f l = some ys) : ∀ y ∈ ys, ∃ x ∈ l, f x = some y :=
  forall2_mem_right (optMap_forall2 h)

theorem optMap_length {α β : Type} {f : α → Option β} {l : List α} {ys : List β}
    (h : optMap f l = some ys) : ys.length = l.length :=
  (optMap_forall2 h).length_eq.symm

theorem optMap_isSome {α β : Type} {f : α → Option β} :
    ∀ l : List α, (optMap f l).isSome = l.all (fun x => (f x).isSome) := by
  intro l
  induction l with
  | nil => simp [optMap]
  | cons a l ih =>
    cases hfa : f a with
    | none => simp [optMap, hfa]
    | some b =>
      cases hrest : optMap f l with
      | none => simp [optMap, hfa, hrest] at ih ⊢; exact ih
      | some bs => simp [optMap, hfa, hrest] at ih ⊢; exact ih

theorem optMap_congr {α β : Type} {f : α → Option β} :
    ∀ {l1 l2 : List α}, List.Forall₂ (fun a b => f a = f b) l1 l2 →
      optMap f l1 = optMap f l2 := by
  intro l1 l2 h
  induction h with
  | nil => rfl
  | cons hab _ ih => simp only [optMap, hab, ih]

theorem rowOfFields_measured {dt : Str} {c : Int} {fields : List Str} {r : Row}
    (h : rowOfFields dt c fields = some r) :
    r.2.1 = (r.2.2 : ℚ) * (if dt = ['n', 's'] then 1000000000 else 1000000) / (c : ℚ) := by
  cases hm : optMap pyInt fields with
  | none => simp [rowOfFields, hm] at h
  | some vals =>
    cases hv0 : vals[0]? with
    | none => simp [rowOfFields, hm, hv0] at h
    | some v0 =>
      cases hv2 : vals[2]? with
      | none => simp [rowOfFields, hm, hv0, hv2] at h
      | some v2 =>
        cases hc : conv dt c v0 v2 with
        | none => simp [rowOfFields, hm, hv0, hv2, hc] at h
        | some m =>
          simp [rowOfFields, hm, hv0, hv2, hc] at h
          by_cases h0 : c = 0
          · simp [conv, h0] at hc
          · rw [conv, if_neg h0] at hc
            cases hc
            cases h
            rfl

/-- C1: for every well-formed table whose header line declares clock `c`,
`parse_table` converts each data line's raw cycle count into a time value
equal to `cycles * 1e9 / c` when the declared unit (characters 12-14 of
the header line) is `"ns"`, and `cycles * 1e6 / c` for any other declared
unit, and stores this value as the tuple's measured delay. -/
theorem c1_unit_conversion (text : Str) (dt : Str) (c : Int) (rows : List Row)
    (h : parse_table text = some (dt, c, rows)) :
    dt = headerDtype text ∧ headerClock text = some c ∧
      ∀ r ∈ rows,
        r.2.1 = (r.2.2 : ℚ) * (if dt = ['n', 's'] then 1000000000 else 1000000) / (c : ℚ) := by
  cases hl0 : (splitlines (pyStrip text))[0]? with
  | none => simp [parse_table, hl0] at h
  | some line0 =>
    have hgetd : (splitlines (pyStrip text)).getD 0 [] = line0 := by
      rw [List.getD_eq_getElem?_getD, hl0]; rfl
    cases hcs : (pySplit3 ' ' '=' ' ' line0)[1]? with
    | none => simp [parse_table, hl0, hcs] at h
    | some clockStr =>
      cases hci : pyInt clockStr with
      | none => simp [parse_table, hl0, hcs, hci] at h
      | some clock =>
        cases hrows : optMap (parseRow ((line0.drop 12).take 2) clock)
            ((splitlines (pyStrip text)).drop 3) with
        | none => simp [parse_table, hl0, hcs, hci, hrows] at h
        | some rows0 =>
          simp only [parse_table, hl0, hcs, hci, hrows, Option.some.injEq, Prod.mk.injEq] at h
          obtain ⟨hdt, hc, hr⟩ := h
          subst hdt; subst hc; subst hr
          refine ⟨?_, ?_, ?_⟩
          · unfold headerDtype tableLines
            rw [hgetd]
          · unfold headerClock tableLines
            rw [hgetd, hcs]
            exact hci
          · intro r hrmem
            obtain ⟨line, _, hline⟩ := optMap_mem hrows r hrmem
            exact rowOfFields_measured hline

/-- Concrete table text used to witness C1. -/
def c1WitnessText : Str :=
  "XXXXXXXXXXXXns = 1000000\nh1\nh2\n100 | 105 | 200".data

theorem c1_unit_conversion_witness :
    parse_table c1WitnessText = some (['n', 's'], 1000000, [(100, 200000, 200)]) ∧
      ((100, (200000 : ℚ), 200) : Row).2.1 =
        (((100, (200000 : ℚ), 200) : Row).2.2 : ℚ) *
          (if (['n', 's'] : Str) = ['n', 's'] then 1000000000 else 1000000) / ((1000000 : Int) : ℚ) :=
  ⟨by decide,
   (c1_unit_conversion c1WitnessText ['n', 's'] 1000000 [(100, 200000, 200)]
      (by decide)).2.2 (100, 200000, 200) (by decide)⟩

theorem consCur_ne_nil (c : Char) (l : List Str) : consCur c l ≠ [] := by
  cases l <;> simp [consCur]

theorem pySplit3_ne_nil (s1 s2 s3 : Char) (s : Str) : pySplit3 s1 s2 s3 s ≠ [] := by
  rw [pySplit3.eq_def]
  split
  · split
    · simp
    · exact consCur_ne_nil _ _
  · exact consCur_ne_nil _ _
  · simp

theorem lineFields_ne_nil (line : Str) : lineFields line ≠ [] :=
  pySplit3_ne_nil _ _ _ _

/-- Well-formedness of a table text: the first line has a chunk after
`" = "` parsing as a decimal integer, and every data line (fourth onward),
after dropping trailing `>` characters, splits on `" | "` into at least
three fields, all parsing as decimal integers, with a nonzero clock
whenever at least one data line exists. -/
def wfTable (text : Str) : Bool :=
  match (tableLines text)[0]? with
  | none => false
  | some line0 =>
    match (pySplit3 ' ' '=' ' ' line0)[1]? with
    | none => false
    | some clockStr =>
      match pyInt clockStr with
      | none => false
      | some clock =>
        ((tableLines text).drop 3).all (fun l =>
          (lineFields l).all (fun f => (pyInt f).isSome) &&
            decide (3 ≤ (lineFields l).length) && !decide (clock = 0))

theorem parseRow_isSome (dt : Str) (c : Int) (line : Str) :
    (parseRow dt c line).isSome =
      ((lineFields line).all (fun f => (pyInt f).isSome) &&
        decide (3 ≤ (lineFields line).length) && !decide (c = 0)) := by
  unfold parseRow rowOfFields
  cases hm : optMap pyInt (lineFields line) with
  | none =>
    have hall := optMap_isSome (f := pyInt) (lineFields line)
    rw [hm] at hall
    simp [← hall]
  | some vals =>
    have hall := optMap_isSome (f := pyInt) (lineFields line)
    rw [hm] at hall
    have hlen : vals.length = (lineFields line).length := optMap_length hm
    cases vals with
    | nil =>
      exact absurd (List.length_eq_zero.mp hlen.symm) (lineFields_ne_nil line)
    | cons v0 vrest =>
      cases h2 : vrest[1]? with
      | none =>
        have hlt : vrest.length ≤ 1 := List.getElem?_eq_none_iff.mp h2
        have h3 : ¬ (3 ≤ (lineFields line).length) := by
          rw [← hlen]
          simp only [List.length_cons]
          omega
        simp [h2, ← hall, h3]
      | some v2 =>
        have hlt : 1 < vrest.length := by
          by_contra hcon
          rw [List.getElem?_eq_none_iff.mpr (by omega)] at h2
          cases h2
        have h3 : 3 ≤ (lineFields line).length := by
          rw [← hlen]
          simp only [List.length_cons]
          omega
        cases hc : conv dt c v0 v2 with
        | none =>
          have hc0 : c = 0 := by
            by_contra hcon
            rw [conv, if_neg hcon] at hc
            cases hc
          subst hc0
          simp [h2, conv, ← hall, h3]
        | some m =>
          have hc0 : ¬ (c = 0) := by
            intro hcon
            rw [conv, if_pos hcon] at hc
            cases hc
          simp [h2, hc, ← hall, h3, hc0]

/-- C4 (amended): `parse_table` returns normally exactly on well-formed
tables: the first line must contain `" = "` with the following chunk a
decimal integer; every data line (fourth line onward), after dropping the
line's trailing `>` characters, must split on `" | "` into at least three
fields, each a decimal integer after stripping whitespace; and when at
least one data line exists the clock must be nonzero. On every other
table text it raises an error. -/
theorem c4_parse_success_iff (text : Str) : (parse_table text).isSome = wfTable text := by
  unfold parse_table wfTable
  cases hl0 : (tableLines text)[0]? with
  | none => simp only [tableLines] at hl0; simp [hl0]
  | some line0 =>
    have hl0' : (splitlines (pyStrip text))[0]? = some line0 := hl0
    cases hcs : (pySplit3 ' ' '=' ' ' line0)[1]? with
    | none => simp [hl0', hcs]
    | some clockStr =>
      cases hci : pyInt clockStr with
      | none => simp [hl0', hcs, hci]
      | some clock =>
        simp only [hl0', hcs, hci]
        have hfun : (fun l => (parseRow ((line0.drop 12).take 2) clock l).isSome) =
            (fun l => (lineFields l).all (fun f => (pyInt f).isSome) &&
              decide (3 ≤ (lineFields l).length) && !decide (clock = 0)) :=
          funext (parseRow_isSome ((line0.drop 12).take 2) clock)
        have hiso := optMap_isSome (f := parseRow ((line0.drop 12).take 2) clock)
          ((splitlines (pyStrip text)).drop 3)
        rw [hfun] at hiso
        cases hrows : optMap (parseRow ((line0.drop 12).take 2) clock)
            ((splitlines (pyStrip text)).drop 3) with
        | none =>
          rw [hrows] at hiso
          simp only [tableLines]
          simp [← hiso]
        | some rows =>
          rw [hrows] at hiso
          simp only [tableLines]
          simp [← hiso]

/-- Concrete table text for the C4 counterexample: both fields of the
data line are decimal integers and the header declares a clock, yet the
data line has no third field. -/
def c4CexText : Str :=
  "XXXXXXXXXXXXns = 100\nh\nh\n5 | 7".data

/-- C4 counterexample: this table satisfies the shape conditions of the
original claim (the first line contains `" = "` followed by a decimal
integer, and every `" | "`-field of every data line is a decimal
integer), yet `parse_table` raises an error, because the data line lacks
a third field. -/
theorem c4_counterexample :
    parse_table c4CexText = none ∧
      headerClock c4CexText = some 100 ∧
      ((tableLines c4CexText).drop 3).all
        (fun l => (lineFields l).all (fun f => (pyInt f).isSome)) = true := by
  refine ⟨by decide, by decide, by decide⟩

/-- Relation between the field lists of two data lines that agree except
possibly in the second field (index 1), where both sides hold decimal
integers. -/
def fieldRel (f1 f2 : List Str) : Prop :=
  f1 = f2 ∨ ∃ x a b rest, f1 = x :: a :: rest ∧ f2 = x :: b :: rest ∧
    (pyInt a).isSome ∧ (pyInt b).isSome

theorem rowOfFields_fieldRel {dt : Str} {c : Int} {f1 f2 : List Str}
    (h : fieldRel f1 f2) : rowOfFields dt c f1 = rowOfFields dt c f2 := by
  rcases h with rfl | ⟨x, a, b, rest, rfl, rfl, ha, hb⟩
  · rfl
  · obtain ⟨va, hva⟩ := Option.isSome_iff_exists.mp ha
    obtain ⟨vb, hvb⟩ := Option.isSome_iff_exists.mp hb
    unfold rowOfFields
    cases hx : pyInt x with
    | none => simp [optMap, hx]
    | some vx =>
      cases hrest : optMap pyInt rest with
      | none => simp [optMap, hx, hva, hvb, hrest]
      | some vr => simp [optMap, hx, hva, hvb, hrest]

/-- C8: the measured-delay column of the input never influences the
output: two table texts with the same first three lines whose data lines
differ only in the second `" | "`-field (both being decimal integers)
parse to identical results, because the tuple's measured delay is
recomputed from the raw cycle count and the clock, and `conv` ignores its
delay argument. -/
theorem c8_second_column_ignored (t1 t2 : Str)
    (h0 : (tableLines t1).take 3 = (tableLines t2).take 3)
    (h1 : List.Forall₂ fieldRel (((tableLines t1).drop 3).map lineFields)
      (((tableLines t2).drop 3).map lineFields)) :
    parse_table t1 = parse_table t2 := by
  have hl0 : (splitlines (pyStrip t1))[0]? = (splitlines (pyStrip t2))[0]? := by
    have h01 := congrArg (fun l => l[0]?) h0
    simpa [tableLines, List.getElem?_take] using h01
  unfold tableLines at h1
  unfold parse_table
  cases hx : (splitlines (pyStrip t1))[0]? with
  | none =>
    have hx2 : (splitlines (pyStrip t2))[0]? = none := by rw [← hl0]; exact hx
    simp [hx2]
  | some line0 =>
    have hx2 : (splitlines (pyStrip t2))[0]? = some line0 := by rw [← hl0]; exact hx
    simp only [hx2]
    cases hcs : (pySplit3 ' ' '=' ' ' line0)[1]? with
    | none => simp [hcs]
    | some clockStr =>
      cases hci : pyInt clockStr with
      | none => simp [hcs, hci]
      | some clock =>
        have hrel : List.Forall₂
            (fun a b => parseRow ((line0.drop 12).take 2) clock a
              = parseRow ((line0.drop 12).take 2) clock b)
            ((splitlines (pyStrip t1)).drop 3) ((splitlines (pyStrip t2)).drop 3) := by
          rw [List.forall₂_map_left_iff, List.forall₂_map_right_iff] at h1
          exact h1.imp (fun a b hr => rowOfFields_fieldRel hr)
        have hopt := optMap_congr hrel
        simp [hcs, hci, hopt]

/-- First concrete text for the C8 witness. -/
def c8WitnessText1 : Str :=
  "XXXXXXXXXXXXns = 100\nh\nh\n5 | 7 | 9".data

/-- Second concrete text for the C8 witness: same but for the second
column of the data line. -/
def c8WitnessText2 : Str :=
  "XXXXXXXXXXXXns = 100\nh\nh\n5 | 8 | 9".data

theorem c8_second_column_ignored_witness :
    parse_table c8WitnessText1 = parse_table c8WitnessText2 := by
  apply c8_second_column_ignored
  · decide
  · refine List.Forall₂.cons ?_ List.Forall₂.nil
    exact Or.inr ⟨['5'], ['7'], ['8'], [['9']], by decide, by decide, by decide, by decide⟩

/-- Innermost dict level: clock to data list (line 17). -/
abbrev ClockMap := List (Int × List Row)

/-- Middle dict level: unit string to clock map. -/
abbrev DtypeMap := List (Str × ClockMap)

/-- The global `DATA` dict: device to unit to clock to data list. Python
dicts preserve insertion order; they are modelled as association lists
whose update keeps the position of an existing key and appends new keys. -/
abbrev Data := List (Str × DtypeMap)

/-- Dict lookup. -/
def alGet {κ α : Type} [DecidableEq κ] : List (κ × α) → κ → Option α
  | [], _ => none
  | p :: rest, k => if p.1 = k then some p.2 else alGet rest k

/-- Dict update: replace in place, or append a new binding. -/
def alSet {κ α : Type} [DecidableEq κ] : List (κ × α) → κ → α → List (κ × α)
  | [], k, v => [(k, v)]
  | p :: rest, k, v => if p.1 = k then (k, v) :: rest else p :: alSet rest k v

/-- The dict update `DATA[device][data[0]][data[1]] = data[2]` (line 17),
with `defaultdict` semantics creating missing device and unit entries. -/
def dataSet (D : Data) (device dt : Str) (c : Int) (rows : List Row) : Data :=
  alSet D device
    (alSet ((alGet D device).getD []) dt
      (alSet ((alGet ((alGet D device).getD []) dt).getD []) c rows))

/-- Three-level dict lookup `DATA[device][dt][c]`. -/
def dataGet (D : Data) (device dt : Str) (c : Int) : Option (List Row) :=
  ((alGet D device).bind (fun m => alGet m dt)).bind (fun m => alGet m c)

/-- fnmatch-style glob matching with `*` and `?` wildcards, modelling
`Path.glob` over names in the script's directory (line 11). -/
def globMatch : Str → Str → Bool
  | [], name => name.isEmpty
  | '*' :: p, name => name.tails.any (fun s => globMatch p s)
  | '?' :: p, name =>
    match name with
    | [] => false
    | _ :: nr => globMatch p nr
  | c :: p, name =>
    match name with
    | [] => false
    | n :: nr => c = n && globMatch p nr

/-- Device name from a file name: Python `file.name[5:-4]` (line 12),
dropping the first five and last four characters. -/
def deviceName (name : Str) : Str :=
  (name.drop 5).take (name.length - 9)

/-- Parse all tables of one file into the dict (lines 15-17); an
unparseable table terminates the script. -/
def processTables (device : Str) : Data → List Str → Option Data
  | D, [] => some D
  | D, t :: ts =>
    match parse_table t with
    | none => none
    | some (dt, c, rows) => processTables device (dataSet D device dt c rows) ts

/-- Embedding of `read_tables` (lines 9-17): iterate over a directory
listing (file name and content pairs, in iteration order), skip files not
matching the glob pattern, and parse each matching file's
`"\n\n"`-separated tables into the dict, starting from `D`. -/
def read_tables (pat : Str) : Data → List (Str × Str) → Option Data
  | D, [] => some D
  | D, (name, content) :: fs =>
    if globMatch pat name then
      match processTables (deviceName name) D (pySplit2 '\n' '\n' content) with
      | none => none
      | some D2 => read_tables pat D2 fs
    else read_tables pat D fs

/-- All tables (in processing order) contributed to one device by the
matching files of a directory listing. -/
def deviceTables (pat : Str) (files : List (Str × Str)) (dev : Str) : List Str :=
  files.bind (fun f =>
    if globMatch pat f.1 && decide (deviceName f.1 = dev) then pySplit2 '\n' '\n' f.2 else [])

/-- One step of the last-writer scan: a table with the sought unit and
clock replaces the accumulator. -/
def lastKeyStep (dt : Str) (c : Int) (acc : Option (List Row)) (t : Str) : Option (List Row) :=
  match parse_table t with
  | some (dt', c', rows) => if dt' = dt ∧ c' = c then some rows else acc
  | none => acc

/-- The data list of the last table in `ts` parsing to unit `dt` and
clock `c`, if any. -/
def lastKey (ts : List Str) (dt : Str) (c : Int) : Option (List Row) :=
  ts.foldl (lastKeyStep dt c) none

theorem alGet_alSet {κ α : Type} [DecidableEq κ] (l : List (κ × α)) (k k' : κ) (v : α) :
    alGet (alSet l k v) k' = if k' = k then some v else alGet l k' := by
  induction l with
  | nil =>
    by_cases h : k' = k
    · simp [alGet, alSet, h]
    · have h2 : ¬ (k = k') := fun hh => h hh.symm
      simp [alGet, alSet, h, h2]
  | cons p rest ih =>
    by_cases hpk : p.1 = k
    · by_cases h : k' = k
      · simp [alGet, alSet, hpk, h]
      · have h2 : ¬ (k = k') := fun hh => h hh.symm
        have hpk' : ¬ (p.1 = k') := by rw [hpk]; exact h2
        simp [alGet, alSet, hpk, h, hpk', h2]
    · by_cases h : k' = k
      · subst h
        simp [alGet, alSet, hpk, ih]
      · by_cases hp' : p.1 = k'
        · simp [alGet, alSet, hpk, h, hp', ih]
        · simp [alGet, alSet, hpk, h, hp', ih]

theorem dataGet_dataSet (D : Data) (dev dt : Str) (c : Int) (rows : List Row)
    (dev' dt' : Str) (c' : Int) :
    dataGet (dataSet D dev dt c rows) dev' dt' c' =
      if dev' = dev ∧ dt' = dt ∧ c' = c then some rows else dataGet D dev' dt' c' := by
  by_cases h1 : dev' = dev
  · subst h1
    by_cases h2 : dt' = dt
    · subst h2
      by_cases h3 : c' = c
      · subst h3
        simp [dataGet, dataSet, alGet_alSet]
      · have h3' : ¬ c = c' := fun hh => h3 hh.symm
        cases hD : alGet D dev' with
        | none => simp [dataGet, dataSet, alGet_alSet, h3, h3', hD, alGet]
        | some dmap0 =>
          cases hdm : alGet dmap0 dt' with
          | none => simp [dataGet, dataSet, alGet_alSet, h3, h3', hD, hdm, alGet]
          | some cm => simp [dataGet, dataSet, alGet_alSet, h3, h3', hD, hdm]
    · have h2' : ¬ dt = dt' := fun hh => h2 hh.symm
      cases hD : alGet D dev' with
      | none => simp [dataGet, dataSet, alGet_alSet, h2, h2', hD, alGet]
      | some dmap0 => simp [dataGet, dataSet, alGet_alSet, h2, h2', hD]
  · simp [dataGet, dataSet, alGet_alSet, h1]

theorem foldl_lastKeyStep (dt : Str) (c : Int) :
    ∀ (ts : List Str) (acc : Option (List Row)),
      ts.foldl (lastKeyStep dt c) acc =
        match lastKey ts dt c with
        | some r => some r
        | none => acc := by
  intro ts
  induction ts with
  | nil => intro acc; rfl
  | cons t ts ih =>
    intro acc
    rw [List.foldl_cons, ih (lastKeyStep dt c acc t)]
    have hr : lastKey (t :: ts) dt c =
        match lastKey ts dt c with
        | some r => some r
        | none => lastKeyStep dt c none t := by
      rw [lastKey, List.foldl_cons, ih (lastKeyStep dt c none t)]
    rw [hr]
    cases hk : lastKey ts dt c with
    | some r => rfl
    | none =>
      unfold lastKeyStep
      cases hp : parse_table t with
      | none => rfl
      | some r0 =>
        obtain ⟨dt0, c0, rws⟩ := r0
        by_cases hcond : dt0 = dt ∧ c0 = c
        · simp [hcond]
        · simp [hcond]

theorem lastKey_append (ts1 ts2 : List Str) (dt : Str) (c : Int) :
    lastKey (ts1 ++ ts2) dt c =
      match lastKey ts2 dt c with
      | some r => some r
      | none => lastKey ts1 dt c := by
  rw [lastKey, List.foldl_append]
  exact foldl_lastKeyStep dt c ts2 (List.foldl (lastKeyStep dt c) none ts1)

theorem foldl_lastKeyStep_some {dt : Str} {c : Int} {rows : List Row} :
    ∀ {ts : List Str} {acc : Option (List Row)},
      ts.foldl (lastKeyStep dt c) acc = some rows →
        (∃ t ∈ ts, parse_table t = some (dt, c, rows)) ∨ acc = some rows := by
  intro ts
  induction ts with
  | nil => intro acc h; exact Or.inr h
  | cons t ts ih =>
    intro acc h
    rw [List.foldl_cons] at h
    rcases ih h with hmem | hstep
    · rcases hmem with ⟨t', ht', hp⟩
      exact Or.inl ⟨t', List.mem_cons_of_mem _ ht', hp⟩
    · cases hp : parse_table t with
      | none => simp only [lastKeyStep, hp] at hstep; exact Or.inr hstep
      | some r0 =>
        obtain ⟨dt0, c0, rws⟩ := r0
        simp only [lastKeyStep, hp] at hstep
        by_cases hcond : dt0 = dt ∧ c0 = c
        · rw [if_pos hcond] at hstep
          have hrw : rws = rows := by injection hstep
          exact Or.inl ⟨t, List.mem_cons_self _ _, by rw [hp, hcond.1, hcond.2, hrw]⟩
        · rw [if_neg hcond] at hstep
          exact Or.inr hstep

theorem lastKey_eq_some_mem {ts : List Str} {dt : Str} {c : Int} {rows : List Row}
    (h : lastKey ts dt c = some rows) : ∃ t ∈ ts, parse_table t = some (dt, c, rows) := by
  rcases foldl_lastKeyStep_some h with hmem | habs
  · exact hmem
  · cases habs

theorem processTables_dataGet {device : Str} :
    ∀ {ts : List Str} {D D' : Data}, processTables device D ts = some D' →
      ∀ dev dt c, dataGet D' dev dt c =
        if dev = device then
          match lastKey ts dt c with
          | some rows => some rows
          | none => dataGet D dev dt c
        else dataGet D dev dt c := by
  intro ts
  induction ts with
  | nil =>
    intro D D' h dev dt c
    simp only [processTables, Option.some.injEq] at h
    subst h
    by_cases hd : dev = device <;> simp [hd, lastKey]
  | cons t ts ih =>
    intro D D' h dev dt c
    cases hp : parse_table t with
    | none => simp [processTables, hp] at h
    | some r0 =>
      obtain ⟨dt0, c0, rows0⟩ := r0
      simp only [processTables, hp] at h
      have hrec := ih h dev dt c
      have hlk : lastKey (t :: ts) dt c =
          match lastKey ts dt c with
          | some r => some r
          | none => lastKeyStep dt c none t := by
        rw [lastKey, List.foldl_cons]
        exact foldl_lastKeyStep dt c ts (lastKeyStep dt c none t)
      rw [hrec, hlk]
      by_cases hd : dev = device
      · subst hd
        rw [if_pos rfl, if_pos rfl]
        cases hk : lastKey ts dt c with
        | some r => rfl
        | none =>
          rw [dataGet_dataSet]
          simp only [lastKeyStep, hp]
          by_cases hcond : dt0 = dt ∧ c0 = c
          · obtain ⟨hdt0, hc0⟩ := hcond
            subst hdt0
            subst hc0
            simp
          · have hcond2 : ¬ (dev = dev ∧ dt = dt0 ∧ c = c0) :=
              fun hh => hcond ⟨hh.2.1.symm, hh.2.2.symm⟩
            simp [hcond, hcond2]
            intro h1 h2
            exact absurd ⟨h1.symm, h2.symm⟩ hcond
      · rw [if_neg hd, if_neg hd, dataGet_dataSet,
          if_neg (fun hh => hd hh.1)]

theorem read_tables_dataGet {pat : Str} :
    ∀ {files : List (Str × Str)} {D D' : Data}, read_tables pat D files = some D' →
      ∀ dev dt c, dataGet D' dev dt c =
        match lastKey (deviceTables pat files dev) dt c with
        | some rows => some rows
        | none => dataGet D dev dt c := by
  intro files
  induction files with
  | nil =>
    intro D D' h dev dt c
    simp only [read_tables, Option.some.injEq] at h
    subst h
    simp [deviceTables, lastKey]
  | cons f fs ih =>
    intro D D' h dev dt c
    obtain ⟨name, content⟩ := f
    have hdev : deviceTables pat ((name, content) :: fs) dev =
        (if globMatch pat name && decide (deviceName name = dev)
          then pySplit2 '\n' '\n' content else []) ++ deviceTables pat fs dev := by
      simp [deviceTables, List.bind]
    cases hm : globMatch pat name with
    | false =>
      simp only [read_tables, hm, if_neg Bool.false_ne_true] at h
      rw [ih h dev dt c, hdev, hm]
      simp
    | true =>
      simp only [read_tables, hm] at h
      cases hpt : processTables (deviceName name) D (pySplit2 '\n' '\n' content) with
      | none => rw [hpt] at h; simp at h
      | some D2 =>
        rw [hpt] at h
        have h2 : read_tables pat D2 fs = some D' := h
        rw [ih h2 dev dt c, hdev]
        have hrec := processTables_dataGet hpt dev dt c
        by_cases hd : deviceName name = dev
        · have hdec : (decide (deviceName name = dev)) = true := decide_eq_true hd
          have hct : (globMatch pat name && decide (deviceName name = dev)) = true := by
            simp [hm, hdec]
          rw [if_pos hct, lastKey_append, hrec, if_pos hd.symm]
          cases hk : lastKey (deviceTables pat fs dev) dt c with
          | some r => rfl
          | none =>
            cases hk2 : lastKey (pySplit2 '\n' '\n' content) dt c with
            | some r => rfl
            | none => rfl
        · have hdec : (decide (deviceName name = dev)) = false := decide_eq_false hd
          have hcf : ¬ ((globMatch pat name && decide (deviceName name = dev)) = true) := by
            simp [hm, hdec]
          rw [if_neg hcf, hrec, if_neg (fun hh => hd hh.symm)]
          simp

/-- C9: when a device's files contain several tables declaring the same
unit and clock, `read_tables` keeps only the last one parsed: the stored
entry under `(device, unit, clock)` is the data list of the final table
with that key in processing order, earlier ones being silently
overwritten; keys never written are absent. -/
theorem c9_last_table_wins (pat : Str) (files : List (Str × Str)) (D : Data)
    (h : read_tables pat [] files = some D) (dev dt : Str) (c : Int) :
    dataGet D dev dt c = lastKey (deviceTables pat files dev) dt c := by
  rw [read_tables_dataGet h dev dt c]
  cases hk : lastKey (deviceTables pat files dev) dt c with
  | some r => rfl
  | none => rfl

/-- Directory listing with one file holding two tables with the same unit
and clock, used to witness C9 and C3. -/
def sampleFiles : List (Str × Str) :=
  [("data_a.txt".data,
    ("XXXXXXXXXXXXns = 100\nh\nh\n5 | 0 | 7\n\nXXXXXXXXXXXXns = 100\nh\nh\n6 | 0 | 8").data)]

/-- The dict produced from `sampleFiles`: only the second table survives. -/
def sampleData : Data :=
  [(['a'], [(['n', 's'], [(100, [(6, 80000000, 8)])])])]

theorem c9_last_table_wins_witness :
    read_tables "data_*".data [] sampleFiles = some sampleData ∧
      dataGet sampleData ['a'] ['n', 's'] 100 =
        lastKey (deviceTables ("data_*".data) sampleFiles ['a']) ['n', 's'] 100 :=
  ⟨by decide,
   c9_last_table_wins ("data_*".data) sampleFiles sampleData (by decide) ['a'] ['n', 's'] 100⟩

theorem read_tables_filter (pat : Str) :
    ∀ (files : List (Str × Str)) (D : Data),
      read_tables pat D files =
        read_tables pat D (files.filter (fun f => globMatch pat f.1)) := by
  intro files
  induction files with
  | nil => intro D; rfl
  | cons f fs ih =>
    intro D
    obtain ⟨name, content⟩ := f
    cases hm : globMatch pat name with
    | false =>
      simp only [read_tables, List.filter_cons]
      simp [hm, ih]
    | true =>
      simp only [read_tables, List.filter_cons]
      cases hpt : processTables (deviceName name) D (pySplit2 '\n' '\n' content) with
      | none => simp [read_tables, hm, hpt]
      | some D2 => simp [read_tables, hm, hpt, ih]

theorem pySplit2_ne_nil (s1 s2 : Char) (s : Str) : pySplit2 s1 s2 s ≠ [] := by
  rw [pySplit2.eq_def]
  split
  · split
    · simp
    · exact consCur_ne_nil _ _
  · exact consCur_ne_nil _ _
  · simp

theorem alGet_dataSet_isSome (D : Data) (device dt : Str) (c : Int) (rows : List Row)
    (dev : Str) :
    (alGet (dataSet D device dt c rows) dev).isSome = true ↔
      (dev = device ∨ (alGet D dev).isSome = true) := by
  unfold dataSet
  rw [alGet_alSet]
  by_cases h : dev = device
  · simp [h]
  · simp [h]

theorem processTables_alGet_isSome {device : Str} :
    ∀ {ts : List Str} {D D' : Data}, processTables device D ts = some D' → ∀ dev,
      ((alGet D' dev).isSome = true ↔
        ((alGet D dev).isSome = true ∨ (dev = device ∧ ts ≠ []))) := by
  intro ts
  induction ts with
  | nil =>
    intro D D' h dev
    simp only [processTables, Option.some.injEq] at h
    subst h
    simp
  | cons t ts ih =>
    intro D D' h dev
    cases hp : parse_table t with
    | none => simp [processTables, hp] at h
    | some r0 =>
      obtain ⟨dt0, c0, rows0⟩ := r0
      simp only [processTables, hp] at h
      rw [ih h dev, alGet_dataSet_isSome]
      constructor
      · rintro ((hdev | hD) | ⟨hdev, -⟩)
        · exact Or.inr ⟨hdev, by simp⟩
        · exact Or.inl hD
        · exact Or.inr ⟨hdev, by simp⟩
      · rintro (hD | ⟨hdev, -⟩)
        · exact Or.inl (Or.inr hD)
        · exact Or.inl (Or.inl hdev)

theorem read_tables_alGet_isSome {pat : Str} :
    ∀ {files : List (Str × Str)} {D D' : Data}, read_tables pat D files = some D' → ∀ dev,
      ((alGet D' dev).isSome = true ↔
        ((alGet D dev).isSome = true ∨
          ∃ f ∈ files, globMatch pat f.1 = true ∧ deviceName f.1 = dev)) := by
  intro files
  induction files with
  | nil =>
    intro D D' h dev
    simp only [read_tables, Option.some.injEq] at h
    subst h
    simp
  | cons f fs ih =>
    intro D D' h dev
    obtain ⟨name, content⟩ := f
    cases hm : globMatch pat name with
    | false =>
      simp only [read_tables, hm, if_neg Bool.false_ne_true] at h
      rw [ih h dev]
      constructor
      · rintro (hD | ⟨f, hf, hgm, hdev⟩)
        · exact Or.inl hD
        · exact Or.inr ⟨f, List.mem_cons_of_mem _ hf, hgm, hdev⟩
      · rintro (hD | ⟨f, hf, hgm, hdev⟩)
        · exact Or.inl hD
        · rcases List.mem_cons.mp hf with rfl | hf2
          · rw [hm] at hgm; cases hgm
          · exact Or.inr ⟨f, hf2, hgm, hdev⟩
    | true =>
      simp only [read_tables, hm] at h
      cases hpt : processTables (deviceName name) D (pySplit2 '\n' '\n' content) with
      | none => rw [hpt] at h; simp at h
      | some D2 =>
        rw [hpt] at h
        have h2 : read_tables pat D2 fs = some D' := h
        rw [ih h2 dev, processTables_alGet_isSome hpt dev]
        have hne : pySplit2 '\n' '\n' content ≠ [] := pySplit2_ne_nil _ _ _
        constructor
        · rintro ((hD | ⟨hdev, -⟩) | ⟨f, hf, hgm, hdev⟩)
          · exact Or.inl hD
          · exact Or.inr ⟨(name, content), List.mem_cons_self _ _, hm, hdev.symm⟩
          · exact Or.inr ⟨f, List.mem_cons_of_mem _ hf, hgm, hdev⟩
        · rintro (hD | ⟨f, hf, hgm, hdev⟩)
          · exact Or.inl (Or.inl hD)
          · rcases List.mem_cons.mp hf with rfl | hf2
            · exact Or.inl (Or.inr ⟨hdev.symm, hne⟩)
            · exact Or.inr ⟨f, hf2, hgm, hdev⟩

theorem optMap_getD {α β : Type} (dflt : α) {f : α → Option β} :
    ∀ {l : List α} {ys : List β}, optMap f l = some ys →
      ∀ i (hi : i < ys.length), f (l.getD i dflt) = some (ys.get ⟨i, hi⟩) := by
  intro l
  induction l with
  | nil =>
    intro ys h i hi
    simp [optMap] at h
    subst h
    simp at hi
  | cons a l ih =>
    intro ys h i hi
    cases hfa : f a with
    | none => simp [optMap, hfa] at h
    | some b =>
      cases hrest : optMap f l with
      | none => simp [optMap, hfa, hrest] at h
      | some bs =>
        simp only [optMap, hfa, hrest, Option.some.injEq] at h
        subst h
        cases i with
        | zero => simpa [List.getD_cons_zero] using hfa
        | succ n =>
          have hn : n < bs.length := by simpa using hi
          simpa [List.getD_cons_succ] using ih hrest n hn

theorem rowOfFields_shape {dt : Str} {c : Int} {fields : List Str} {r : Row}
    (h : rowOfFields dt c fields = some r) :
    ∃ vals : List Int, optMap pyInt fields = some vals ∧ 3 ≤ vals.length ∧
      r = (vals.getD 0 0,
        ((vals.getD 2 0 : Int) : ℚ) * (if dt = ['n', 's'] then 1000000000 else 1000000) / (c : ℚ),
        vals.getD 2 0) := by
  cases hm : optMap pyInt fields with
  | none => simp [rowOfFields, hm] at h
  | some vals =>
    cases vals with
    | nil => simp [rowOfFields, hm] at h
    | cons v0 vrest =>
      cases h2 : vrest[1]? with
      | none => simp [rowOfFields, hm, h2] at h
      | some v2 =>
        cases hc : conv dt c v0 v2 with
        | none => simp [rowOfFields, hm, h2, hc] at h
        | some m =>
          simp only [rowOfFields, hm, List.getElem?_cons_succ, List.getElem?_cons_zero,
            h2, hc] at h
          have hr : (v0, m, v2) = r := by
            simpa using h
          have hlen : 1 < vrest.length := by
            by_contra hcon
            rw [List.getElem?_eq_none_iff.mpr (by omega)] at h2
            cases h2
          have hgetd2 : (v0 :: vrest).getD 2 0 = v2 := by
            rw [List.getD_eq_getElem?_getD, List.getElem?_cons_succ, h2]
            rfl
          have hm' : m = (v2 : ℚ) * (if dt = ['n', 's'] then 1000000000 else 1000000) / (c : ℚ) := by
            by_cases h0 : c = 0
            · rw [conv, if_pos h0] at hc
              cases hc
            · rw [conv, if_neg h0] at hc
              have := Option.some.inj hc
              exact this.symm
          refine ⟨v0 :: vrest, rfl, by simp [List.length_cons]; omega, ?_⟩
          rw [← hr, hgetd2, List.getD_cons_zero, hm']

theorem parse_table_rows_shape {text : Str} {dt : Str} {c : Int} {rows : List Row}
    (h : parse_table text = some (dt, c, rows)) :
    rows.length = ((tableLines text).drop 3).length ∧
      ∀ i (hi : i < rows.length), ∃ vals : List Int,
        optMap pyInt (lineFields (((tableLines text).drop 3).getD i [])) = some vals ∧
          3 ≤ vals.length ∧
          rows.get ⟨i, hi⟩ = (vals.getD 0 0,
            ((vals.getD 2 0 : Int) : ℚ) *
              (if dt = ['n', 's'] then 1000000000 else 1000000) / (c : ℚ),
            vals.getD 2 0) := by
  cases hl0 : (splitlines (pyStrip text))[0]? with
  | none => simp [parse_table, hl0] at h
  | some line0 =>
    cases hcs : (pySplit3 ' ' '=' ' ' line0)[1]? with
    | none => simp [parse_table, hl0, hcs] at h
    | some clockStr =>
      cases hci : pyInt clockStr with
      | none => simp [parse_table, hl0, hcs, hci] at h
      | some clock =>
        cases hrows : optMap (parseRow ((line0.drop 12).take 2) clock)
            ((splitlines (pyStrip text)).drop 3) with
        | none => simp [parse_table, hl0, hcs, hci, hrows] at h
        | some rows0 =>
          simp only [parse_table, hl0, hcs, hci, hrows, Option.some.injEq, Prod.mk.injEq] at h
          obtain ⟨hdt, hc, hr⟩ := h
          subst hdt
          subst hc
          subst hr
          constructor
          · exact optMap_length hrows
          · intro i hi
            have hline := optMap_getD [] hrows i hi
            exact rowOfFields_shape hline

/-- C3: `read_tables` processes exactly the files whose name matches the
glob pattern (conjunct 1); on success every device key is the
five-and-four-character-trimmed name of some matching file and conversely
(conjunct 2); and every stored `(unit, clock)` entry is the parsed data
list of some table of some matching file of that device, holding one
tuple per data line from the fourth line of the table onward, in line
order, with the input delay from column 1, the measured delay from the
unit conversion, and the raw cycle count from column 3 (conjunct 3). -/
theorem c3_read_tables_shape (pat : Str) (files : List (Str × Str)) :
    read_tables pat [] files = read_tables pat [] (files.filter (fun f => globMatch pat f.1)) ∧
      ∀ D, read_tables pat [] files = some D →
        (∀ dev, (alGet D dev).isSome = true ↔
          ∃ f ∈ files, globMatch pat f.1 = true ∧ deviceName f.1 = dev) ∧
        (∀ dev dt c rows, dataGet D dev dt c = some rows →
          ∃ f ∈ files, globMatch pat f.1 = true ∧ deviceName f.1 = dev ∧
            ∃ t ∈ pySplit2 '\n' '\n' f.2, parse_table t = some (dt, c, rows) ∧
              rows.length = ((tableLines t).drop 3).length ∧
              ∀ i (hi : i < rows.length), ∃ vals : List Int,
                optMap pyInt (lineFields (((tableLines t).drop 3).getD i [])) = some vals ∧
                  3 ≤ vals.length ∧
                  rows.get ⟨i, hi⟩ = (vals.getD 0 0,
                    ((vals.getD 2 0 : Int) : ℚ) *
                      (if dt = ['n', 's'] then 1000000000 else 1000000) / (c : ℚ),
                    vals.getD 2 0)) := by
  refine ⟨read_tables_filter pat files [], ?_⟩
  intro D hD
  constructor
  · intro dev
    have hiso := read_tables_alGet_isSome hD dev
    simpa [alGet] using hiso
  · intro dev dt c rows hget
    have hlast := read_tables_dataGet hD dev dt c
    rw [hget] at hlast
    have hlk : lastKey (deviceTables pat files dev) dt c = some rows := by
      cases hk : lastKey (deviceTables pat files dev) dt c with
      | some r =>
        rw [hk] at hlast
        have hre : rows = r := by simpa using hlast
        rw [hre]
      | none =>
        rw [hk] at hlast
        simp [dataGet, alGet] at hlast
    obtain ⟨t, htmem, hpt⟩ := lastKey_eq_some_mem hlk
    rw [deviceTables] at htmem
    obtain ⟨f, hf, htf⟩ := List.mem_bind.mp htmem
    cases hcond : (globMatch pat f.1 && decide (deviceName f.1 = dev)) with
    | false => rw [hcond] at htf; simp at htf
    | true =>
      rw [hcond] at htf
      simp only [if_pos rfl] at htf
      have hand := hcond
      rw [Bool.and_eq_true] at hand
      have hgm : globMatch pat f.1 = true := hand.1
      have hdev : deviceName f.1 = dev := of_decide_eq_true hand.2
      have hshape := parse_table_rows_shape hpt
      exact ⟨f, hf, hgm, hdev, t, htf, hpt, hshape.1, hshape.2⟩

theorem c3_read_tables_shape_witness :
    (alGet sampleData ['a']).isSome = true ↔
      ∃ f ∈ sampleFiles, globMatch ("data_*".data) f.1 = true ∧ deviceName f.1 = ['a'] :=
  ((c3_read_tables_shape ("data_*".data) sampleFiles).2 sampleData (by decide)).1 ['a']

/-- Accumulator of the per-device loop of `dump_summary` (lines 48-50):
running clock minimum and maximum and the two running cycle minima,
seeded with the sentinels `(1e9, 0, 1e9, 1e9)`. -/
structure SummAcc where
  minC : ℚ
  maxC : ℚ
  boot : ℚ
  high : ℚ
  deriving DecidableEq

/-- Initial accumulator of `dump_summary` (lines 48-50). -/
def summInit : SummAcc :=
  { minC := 1000000000, maxC := 0, boot := 1000000000, high := 1000000000 }

/-- Python `min()` over a generator of ints (line 54); `none` models the
`ValueError` raised on an empty sequence. -/
def pyMinInt : List Int → Option Int
  | [] => none
  | a :: l => some (l.foldl min a)

/-- One iteration of the inner loop of `dump_summary` (lines 52-58). -/
def summStep (acc : SummAcc) (c : Int) (rows : List Row) : Option SummAcc :=
  match pyMinInt (rows.map (fun r => r.2.2)) with
  | none => none
  | some mc =>
    some { minC := min acc.minC (c : ℚ), maxC := max acc.maxC (c : ℚ),
           boot := if (c : ℚ) ≤ 16000000 then min acc.boot (mc : ℚ) else acc.boot,
           high := if (c : ℚ) ≤ 16000000 then acc.high else min acc.high (mc : ℚ) }

/-- The loop over one unit's clocks (line 52). -/
def summClocks : SummAcc → ClockMap → Option SummAcc
  | acc, [] => some acc
  | acc, (c, rows) :: rest =>
    match summStep acc c rows with
    | none => none
    | some a2 => summClocks a2 rest

/-- The loop over a device's units (line 51). -/
def summDtypes : SummAcc → DtypeMap → Option SummAcc
  | acc, [] => some acc
  | acc, (_, cm) :: rest =>
    match summClocks acc cm with
    | none => none
    | some a2 => summDtypes a2 rest

/-- The numeric fields of the line printed for one device (lines 59-62). -/
structure SummaryLine where
  device : Str
  bootCycles : ℚ
  highCycles : ℚ
  bootNs : Int
  bootMHz : ℚ
  highNs : Int
  highMHz : ℚ
  deriving DecidableEq

/-- Python `int()` applied to a number: truncation toward zero. -/
def truncQ (q : ℚ) : Int :=
  if 0 ≤ q then ⌊q⌋ else ⌈q⌉

/-- Per-device body of `dump_summary` (lines 47-62), producing the printed
line's fields; `none` models the `ValueError` on an empty table data list
or the `ZeroDivisionError` when a clock extreme is zero. -/
def deviceSummary (dev : Str) (dts : DtypeMap) : Option SummaryLine :=
  match summDtypes summInit dts with
  | none => none
  | some acc =>
    if acc.minC = 0 ∨ acc.maxC = 0 then none
    else some { device := dev, bootCycles := acc.boot, highCycles := acc.high,
                bootNs := truncQ (acc.boot * 1000000000 / acc.minC),
                bootMHz := acc.minC / 1000000,
                highNs := truncQ (acc.high * 1000000000 / acc.maxC),
                highMHz := acc.maxC / 1000000 }

/-- Embedding of `dump_summary` (lines 45-62): one printed line per
device, in dict order. -/
def dump_summary (D : Data) : Option (List SummaryLine) :=
  optMap (fun p => deviceSummary p.1 p.2) D

/-- All `(clock, data)` tables of a device, across its units, in
iteration order. -/
def allTables (dts : DtypeMap) : List (Int × List Row) :=
  dts.bind (fun p => p.2)

/-- Raw cycle counts of all tuples of the tables of one unit whose clock
satisfies `p`. -/
def cyclesWithC (p : Int → Bool) (cm : ClockMap) : List Int :=
  cm.bind (fun t => if p t.1 then t.2.map (fun r => r.2.2) else [])

/-- Raw cycle counts of all tuples of a device whose table clock
satisfies `p`. -/
def cyclesWith (p : Int → Bool) (dts : DtypeMap) : List Int :=
  dts.bind (fun d => cyclesWithC p d.2)

/-- Fold a rational minimum over integer values. -/
def minFoldQ (init : ℚ) (l : List Int) : ℚ :=
  l.foldl (fun (m : ℚ) (v : Int) => min m (v : ℚ)) init

/-- Clocks of one unit's tables. -/
def clocksOfC (cm : ClockMap) : List Int :=
  cm.map (fun t => t.1)

/-- Clocks of all of a device's tables. -/
def clocksOf (dts : DtypeMap) : List Int :=
  dts.bind (fun d => clocksOfC d.2)

/-- The overall maximum clock of a device as `dump_summary` computes it,
seeded with 0. -/
def maxClockQ (dts : DtypeMap) : ℚ :=
  (clocksOf dts).foldl (fun (m : ℚ) (v : Int) => max m (v : ℚ)) 0

theorem minFold_pyMin : ∀ (l : List Int) (a : Int) (q : ℚ),
    minFoldQ q (a :: l) = min q ((l.foldl min a : Int) : ℚ) := by
  intro l
  induction l with
  | nil => intro a q; simp [minFoldQ]
  | cons b l ih =>
    intro a q
    have hinit : min (min q (a : ℚ)) (b : ℚ) = min q (((min a b : Int)) : ℚ) := by
      push_cast
      rw [min_assoc]
    show List.foldl (fun (m : ℚ) (v : Int) => min m (v : ℚ)) (min (min q (a : ℚ)) (b : ℚ)) l =
      min q ((List.foldl min (min a b) l : Int) : ℚ)
    rw [hinit]
    exact ih (min a b) q

theorem minFoldQ_append (init : ℚ) (l1 l2 : List Int) :
    minFoldQ init (l1 ++ l2) = minFoldQ (minFoldQ init l1) l2 := by
  unfold minFoldQ
  exact List.foldl_append _ _ _ _

theorem foldl_min_pos : ∀ (l : List Int), (∀ v ∈ l, 0 < (v : ℚ)) →
    ∀ init : ℚ, 0 < init → 0 < l.foldl (fun (m : ℚ) (v : Int) => min m (v : ℚ)) init := by
  intro l
  induction l with
  | nil => intro _ init h; exact h
  | cons a l ih =>
    intro hl init h
    exact ih (fun v hv => hl v (List.mem_cons_of_mem _ hv)) _
      (lt_min h (hl a (List.mem_cons_self _ _)))

theorem foldl_max_le_self : ∀ (l : List Int) (init : ℚ),
    init ≤ l.foldl (fun (m : ℚ) (v : Int) => max m (v : ℚ)) init := by
  intro l
  induction l with
  | nil => intro init; exact le_refl _
  | cons a l ih =>
    intro init
    exact le_trans (le_max_left _ _) (ih (max init (a : ℚ)))

theorem foldl_max_pos : ∀ (l : List Int), l ≠ [] → (∀ v ∈ l, 0 < (v : ℚ)) →
    0 < l.foldl (fun (m : ℚ) (v : Int) => max m (v : ℚ)) 0 := by
  intro l hne hl
  cases l with
  | nil => exact absurd rfl hne
  | cons a l =>
    have h1 : (0 : ℚ) < max (0 : ℚ) (a : ℚ) :=
      lt_max_of_lt_right (hl a (List.mem_cons_self _ _))
    exact lt_of_lt_of_le h1 (foldl_max_le_self l (max 0 (a : ℚ)))

theorem summClocks_fields :
    ∀ {cm : ClockMap} {acc acc2 : SummAcc}, summClocks acc cm = some acc2 →
      acc2.boot = minFoldQ acc.boot (cyclesWithC (fun c => decide ((c : ℚ) ≤ 16000000)) cm) ∧
      acc2.high = minFoldQ acc.high (cyclesWithC (fun c => !decide ((c : ℚ) ≤ 16000000)) cm) ∧
      acc2.minC = (clocksOfC cm).foldl (fun (m : ℚ) (v : Int) => min m (v : ℚ)) acc.minC ∧
      acc2.maxC = (clocksOfC cm).foldl (fun (m : ℚ) (v : Int) => max m (v : ℚ)) acc.maxC := by
  intro cm
  induction cm with
  | nil =>
    intro acc acc2 h
    simp only [summClocks, Option.some.injEq] at h
    subst h
    simp [cyclesWithC, minFoldQ, clocksOfC]
  | cons t rest ih =>
    obtain ⟨c, rows⟩ := t
    intro acc acc2 h
    cases hmc : pyMinInt (rows.map (fun r => r.2.2)) with
    | none => simp [summClocks, summStep, hmc] at h
    | some mc =>
      simp only [summClocks, summStep, hmc] at h
      obtain ⟨hb, hh, hmin, hmax⟩ := ih h
      obtain ⟨ca, cl, hcl⟩ : ∃ a l, rows.map (fun r => r.2.2) = a :: l := by
        cases hrows : rows.map (fun r => r.2.2) with
        | nil => rw [hrows] at hmc; cases hmc
        | cons a l => exact ⟨a, l, rfl⟩
      have hmc2 : mc = cl.foldl min ca := by
        rw [hcl] at hmc
        exact (Option.some.inj hmc).symm
      have hmin_tab : ∀ q : ℚ, minFoldQ q (rows.map (fun r => r.2.2)) = min q (mc : ℚ) := by
        intro q
        rw [hcl, minFold_pyMin, ← hmc2]
      refine ⟨?_, ?_, ?_, ?_⟩
      · have hcws : cyclesWithC (fun c0 => decide ((c0 : ℚ) ≤ 16000000)) ((c, rows) :: rest) =
            (if decide ((c : ℚ) ≤ 16000000) then rows.map (fun r => r.2.2) else []) ++
              cyclesWithC (fun c0 => decide ((c0 : ℚ) ≤ 16000000)) rest := by
          simp [cyclesWithC]
        rw [hb, hcws, minFoldQ_append]
        by_cases hle : (c : ℚ) ≤ 16000000
        · simp [hle, hmin_tab]
        · simp [hle, minFoldQ]
      · have hcws : cyclesWithC (fun c0 => !decide ((c0 : ℚ) ≤ 16000000)) ((c, rows) :: rest) =
            (if !decide ((c : ℚ) ≤ 16000000) then rows.map (fun r => r.2.2) else []) ++
              cyclesWithC (fun c0 => !decide ((c0 : ℚ) ≤ 16000000)) rest := by
          simp [cyclesWithC]
        rw [hh, hcws, minFoldQ_append]
        by_cases hle : (c : ℚ) ≤ 16000000
        · simp [hle, minFoldQ]
        · simp [hle, hmin_tab]
      · rw [hmin]
        simp [clocksOfC]
      · rw [hmax]
        simp [clocksOfC]

theorem summDtypes_fields :
    ∀ {dts : DtypeMap} {acc acc2 : SummAcc}, summDtypes acc dts = some acc2 →
      acc2.boot = minFoldQ acc.boot (cyclesWith (fun c => decide ((c : ℚ) ≤ 16000000)) dts) ∧
      acc2.high = minFoldQ acc.high (cyclesWith (fun c => !decide ((c : ℚ) ≤ 16000000)) dts) ∧
      acc2.minC = (clocksOf dts).foldl (fun (m : ℚ) (v : Int) => min m (v : ℚ)) acc.minC ∧
      acc2.maxC = (clocksOf dts).foldl (fun (m : ℚ) (v : Int) => max m (v : ℚ)) acc.maxC := by
  intro dts
  induction dts with
  | nil =>
    intro acc acc2 h
    simp only [summDtypes, Option.some.injEq] at h
    subst h
    simp [cyclesWith, minFoldQ, clocksOf]
  | cons d rest ih =>
    obtain ⟨dt0, cm⟩ := d
    intro acc acc2 h
    cases hsc : summClocks acc cm with
    | none => simp [summDtypes, hsc] at h
    | some a2 =>
      simp only [summDtypes, hsc] at h
      obtain ⟨hb1, hh1, hm1, hx1⟩ := summClocks_fields hsc
      obtain ⟨hb2, hh2, hm2, hx2⟩ := ih h
      refine ⟨?_, ?_, ?_, ?_⟩
      · rw [hb2, hb1]
        have hsplit : cyclesWith (fun c => decide ((c : ℚ) ≤ 16000000)) ((dt0, cm) :: rest) =
            cyclesWithC (fun c => decide ((c : ℚ) ≤ 16000000)) cm ++
              cyclesWith (fun c => decide ((c : ℚ) ≤ 16000000)) rest := by
          simp [cyclesWith]
        rw [hsplit, minFoldQ_append]
      · rw [hh2, hh1]
        have hsplit : cyclesWith (fun c => !decide ((c : ℚ) ≤ 16000000)) ((dt0, cm) :: rest) =
            cyclesWithC (fun c => !decide ((c : ℚ) ≤ 16000000)) cm ++
              cyclesWith (fun c => !decide ((c : ℚ) ≤ 16000000)) rest := by
          simp [cyclesWith]
        rw [hsplit, minFoldQ_append]
      · rw [hm2, hm1]
        have hsplit : clocksOf ((dt0, cm) :: rest) = clocksOfC cm ++ clocksOf rest := by
          simp [clocksOf]
        rw [hsplit, List.foldl_append]
      · rw [hx2, hx1]
        have hsplit : clocksOf ((dt0, cm) :: rest) = clocksOfC cm ++ clocksOf rest := by
          simp [clocksOf]
        rw [hsplit, List.foldl_append]

theorem summClocks_isSome : ∀ (cm : ClockMap), (∀ t ∈ cm, t.2 ≠ []) →
    ∀ acc, (summClocks acc cm).isSome = true := by
  intro cm
  induction cm with
  | nil => intro _ acc; rfl
  | cons t rest ih =>
    obtain ⟨c, rows⟩ := t
    intro hne acc
    have hrne : rows ≠ [] := hne (c, rows) (List.mem_cons_self _ _)
    obtain ⟨r0, rrest, hr⟩ : ∃ r0 rrest, rows = r0 :: rrest := by
      cases rows with
      | nil => exact absurd rfl hrne
      | cons a b => exact ⟨a, b, rfl⟩
    subst hr
    simp only [summClocks, summStep, List.map_cons, pyMinInt]
    exact ih (fun t ht => hne t (List.mem_cons_of_mem _ ht)) _

theorem summDtypes_isSome : ∀ (dts : DtypeMap), (∀ p ∈ dts, ∀ t ∈ p.2, t.2 ≠ []) →
    ∀ acc, (summDtypes acc dts).isSome = true := by
  intro dts
  induction dts with
  | nil => intro _ acc; rfl
  | cons d rest ih =>
    obtain ⟨dt0, cm⟩ := d
    intro hne acc
    cases hsc : summClocks acc cm with
    | none =>
      have := summClocks_isSome cm (hne (dt0, cm) (List.mem_cons_self _ _)) acc
      rw [hsc] at this
      cases this
    | some a2 =>
      simp only [summDtypes, hsc]
      exact ih (fun p hp => hne p (List.mem_cons_of_mem _ hp)) a2

/-- C2 (amended): for every device in the dict, the printed boot value is
the minimum of the sentinel 1e9 and the raw cycle counts of all tuples of
all tables with clock at most 16e6, and the printed high value is the
minimum of 1e9 and the raw cycle counts of all tuples of tables with
clock above 16e6, ranging over all units of the device. -/
theorem c2_dump_summary_minima (D : Data) (ls : List SummaryLine)
    (h : dump_summary D = some ls) :
    List.Forall₂ (fun (p : Str × DtypeMap) (line : SummaryLine) =>
      line.device = p.1 ∧
      line.bootCycles =
        minFoldQ 1000000000 (cyclesWith (fun c => decide ((c : ℚ) ≤ 16000000)) p.2) ∧
      line.highCycles =
        minFoldQ 1000000000 (cyclesWith (fun c => !decide ((c : ℚ) ≤ 16000000)) p.2)) D ls := by
  have hf := optMap_forall2 h
  refine hf.imp ?_
  intro p line hp
  cases hsd : summDtypes summInit p.2 with
  | none => simp [deviceSummary, hsd] at hp
  | some acc =>
    simp only [deviceSummary, hsd] at hp
    by_cases hz : acc.minC = 0 ∨ acc.maxC = 0
    · rw [if_pos hz] at hp
      cases hp
    · rw [if_neg hz] at hp
      obtain ⟨hb, hh, -, -⟩ := summDtypes_fields hsd
      have hline := Option.some.inj hp
      subst hline
      exact ⟨rfl, hb, hh⟩

/-- Unit map of the C2 counterexample device: one table, clock 1 MHz, one
tuple with a raw cycle count of 2e9, above the 1e9 sentinel. -/
def c2CexDts : DtypeMap :=
  [(['n', 's'], [(1000000, [(1, 0, 2000000000)])])]

/-- Dict of the C2 counterexample. -/
def c2CexData : Data :=
  [(['d'], c2CexDts)]

/-- C2 counterexample: the device's only table has clock 1e6 (at most
16e6) and minimum raw cycle count 2e9, but the printed boot value is the
sentinel 1e9, not that minimum, so the original claim fails. -/
theorem c2_counterexample :
    dump_summary c2CexData =
        some [{ device := ['d'], bootCycles := 1000000000, highCycles := 1000000000,
                bootNs := 1000000000000, bootMHz := 1, highNs := 1000000000000, highMHz := 1 }] ∧
      pyMinInt (cyclesWith (fun c => decide ((c : ℚ) ≤ 16000000)) c2CexDts) =
        some 2000000000 ∧
      (1000000000 : ℚ) ≠ ((2000000000 : Int) : ℚ) := by
  refine ⟨by decide, by decide, by decide⟩

theorem c2_dump_summary_minima_witness :
    List.Forall₂ (fun (p : Str × DtypeMap) (line : SummaryLine) =>
      line.device = p.1 ∧
      line.bootCycles =
        minFoldQ 1000000000 (cyclesWith (fun c => decide ((c : ℚ) ≤ 16000000)) p.2) ∧
      line.highCycles =
        minFoldQ 1000000000 (cyclesWith (fun c => !decide ((c : ℚ) ≤ 16000000)) p.2))
      sampleData
      [{ device := ['a'], bootCycles := 8, highCycles := 1000000000,
         bootNs := 80000000, bootMHz := 1 / 10000,
         highNs := 10000000000000000, highMHz := 1 / 10000 }] :=
  c2_dump_summary_minima sampleData _ (by decide)

/-- C10: for a device all of whose tables have positive clock at most
16e6 and a nonempty data list, `dump_summary` does not fail on the
device: it prints the sentinel 1e9 as the high-clock minimum cycle count,
and the high-clock nanosecond figure is computed from that sentinel and
the device's overall maximum clock. -/
theorem c10_high_sentinel (dev : Str) (dts : DtypeMap)
    (hne : allTables dts ≠ [])
    (hall : ∀ t ∈ allTables dts, 0 < t.1 ∧ (t.1 : ℚ) ≤ 16000000 ∧ t.2 ≠ []) :
    ∃ line, deviceSummary dev dts = some line ∧
      line.highCycles = 1000000000 ∧
      line.highNs = truncQ ((1000000000 : ℚ) * 1000000000 / maxClockQ dts) ∧
      line.highMHz = maxClockQ dts / 1000000 := by
  have hrows : ∀ p ∈ dts, ∀ t ∈ p.2, t.2 ≠ [] := by
    intro p hp t ht
    exact (hall t (List.mem_bind.mpr ⟨p, hp, ht⟩)).2.2
  have hsome := summDtypes_isSome dts hrows summInit
  cases hsd : summDtypes summInit dts with
  | none =>
    rw [hsd] at hsome
    cases hsome
  | some acc =>
    obtain ⟨hb, hh, hm, hx⟩ := summDtypes_fields hsd
    have hclocks : clocksOf dts = (allTables dts).map (fun t => t.1) := by
      simp [clocksOf, allTables, clocksOfC, List.map_bind]
    have hcpos : ∀ v ∈ clocksOf dts, 0 < (v : ℚ) := by
      intro v hv
      rw [hclocks] at hv
      obtain ⟨t, ht, rfl⟩ := List.mem_map.mp hv
      exact_mod_cast (hall t ht).1
    have hcne : clocksOf dts ≠ [] := by
      rw [hclocks]
      intro hnil
      exact hne (List.map_eq_nil.mp hnil)
    have hcye : cyclesWith (fun c => !decide ((c : ℚ) ≤ 16000000)) dts = [] := by
      unfold cyclesWith
      rw [List.bind_eq_nil]
      intro d hd
      unfold cyclesWithC
      rw [List.bind_eq_nil]
      intro t ht
      have hle := (hall t (List.mem_bind.mpr ⟨d, hd, ht⟩)).2.1
      simp [hle]
    have hminpos : 0 < acc.minC := by
      rw [hm]
      exact foldl_min_pos (clocksOf dts) hcpos summInit.minC (by norm_num [summInit])
    have hmaxpos : 0 < acc.maxC := by
      rw [hx]
      exact foldl_max_pos (clocksOf dts) hcne hcpos
    have hz : ¬ (acc.minC = 0 ∨ acc.maxC = 0) := by
      rintro (h0 | h0)
      · rw [h0] at hminpos
        exact lt_irrefl 0 hminpos
      · rw [h0] at hmaxpos
        exact lt_irrefl 0 hmaxpos
    have hhigh : acc.high = 1000000000 := by
      rw [hh, hcye]
      rfl
    have hmaxeq : acc.maxC = maxClockQ dts := hx
    have hds : deviceSummary dev dts = some
        { device := dev, bootCycles := acc.boot, highCycles := acc.high,
          bootNs := truncQ (acc.boot * 1000000000 / acc.minC),
          bootMHz := acc.minC / 1000000,
          highNs := truncQ (acc.high * 1000000000 / acc.maxC),
          highMHz := acc.maxC / 1000000 } := by
      simp only [deviceSummary, hsd]
      rw [if_neg hz]
    refine ⟨_, hds, hhigh, ?_, ?_⟩
    · show truncQ (acc.high * 1000000000 / acc.maxC) =
        truncQ ((1000000000 : ℚ) * 1000000000 / maxClockQ dts)
      rw [hhigh, hmaxeq]
    · show acc.maxC / 1000000 = maxClockQ dts / 1000000
      rw [hmaxeq]

/-- Unit map of the C10 witness device: one table at 1 MHz. -/
def c10Dts : DtypeMap :=
  [(['n', 's'], [(1000000, [(1, 1000, 1)])])]

theorem c10_high_sentinel_witness :
    ∃ line, deviceSummary ['w'] c10Dts = some line ∧
      line.highCycles = 1000000000 ∧
      line.highNs = truncQ ((1000000000 : ℚ) * 1000000000 / maxClockQ c10Dts) ∧
      line.highMHz = maxClockQ c10Dts / 1000000 :=
  c10_high_sentinel ['w'] c10Dts (by decide) (by decide)

/-- One emitted line series (lines 42-43): the x coordinates are the
input delays and the y coordinates the measured delays of the tuples
passing the delay filter, in stored order. -/
def plotSeries (delay_filter : Row → Bool) (rows : List Row) : List Int × List ℚ :=
  ((rows.filter delay_filter).map (fun r => r.1),
   (rows.filter delay_filter).map (fun r => r.2.1))

/-- Embedding of `plot_table` (lines 33-43): iterate the dict in order,
skip devices, units and clocks failing their filters, and emit one line
series per remaining entry. -/
def plot_table (D : Data) (device_filter : Str → Bool) (dtype_filter : Str → Bool)
    (clock_filter : Int → Bool) (delay_filter : Row → Bool) : List (List Int × List ℚ) :=
  D.foldl (fun acc dp =>
    if device_filter dp.1 then
      dp.2.foldl (fun acc2 tp =>
        if dtype_filter tp.1 then
          tp.2.foldl (fun acc3 cp =>
            if clock_filter cp.1 then acc3 ++ [plotSeries delay_filter cp.2] else acc3) acc2
        else acc2) acc
    else acc) []

/-- All `(device, unit, clock, data)` entries of the dict, in iteration
order. -/
def entriesOf (D : Data) : List (Str × Str × Int × List Row) :=
  D.bind (fun dp => dp.2.bind (fun tp => tp.2.map (fun cp => (dp.1, tp.1, cp.1, cp.2))))

theorem plot_level3 (device_filter dtype_filter : Str → Bool) (clock_filter : Int → Bool)
    (delay_filter : Row → Bool) (dev dt : Str)
    (hdev : device_filter dev = true) (hdt : dtype_filter dt = true) :
    ∀ (cm : ClockMap) (acc : List (List Int × List ℚ)),
      cm.foldl (fun acc3 cp =>
          if clock_filter cp.1 then acc3 ++ [plotSeries delay_filter cp.2] else acc3) acc =
        acc ++ ((cm.map (fun cp => (dev, dt, cp.1, cp.2))).filter
            (fun e => device_filter e.1 && dtype_filter e.2.1 && clock_filter e.2.2.1)).map
          (fun e => plotSeries delay_filter e.2.2.2) := by
  intro cm
  induction cm with
  | nil => intro acc; simp
  | cons cp rest ih =>
    intro acc
    by_cases hc : clock_filter cp.1 = true
    · simp only [List.foldl_cons, if_pos hc, List.map_cons, List.filter_cons]
      rw [ih]
      simp [hdev, hdt, hc]
    · simp only [List.foldl_cons, if_neg hc, List.map_cons, List.filter_cons]
      rw [ih]
      simp [hdev, hdt, hc]

theorem plot_level2 (device_filter dtype_filter : Str → Bool) (clock_filter : Int → Bool)
    (delay_filter : Row → Bool) (dev : Str) (hdev : device_filter dev = true) :
    ∀ (dts : DtypeMap) (acc : List (List Int × List ℚ)),
      dts.foldl (fun acc2 tp =>
          if dtype_filter tp.1 then
            tp.2.foldl (fun acc3 cp =>
              if clock_filter cp.1 then acc3 ++ [plotSeries delay_filter cp.2] else acc3) acc2
          else acc2) acc =
        acc ++ ((dts.bind (fun tp => tp.2.map (fun cp => (dev, tp.1, cp.1, cp.2)))).filter
            (fun e => device_filter e.1 && dtype_filter e.2.1 && clock_filter e.2.2.1)).map
          (fun e => plotSeries delay_filter e.2.2.2) := by
  intro dts
  induction dts with
  | nil => intro acc; simp
  | cons tp rest ih =>
    intro acc
    by_cases ht : dtype_filter tp.1 = true
    · simp only [List.foldl_cons, if_pos ht, List.cons_bind]
      rw [plot_level3 device_filter dtype_filter clock_filter delay_filter dev tp.1 hdev ht,
        ih]
      simp [List.filter_append, List.map_append, List.append_assoc]
    · simp only [List.foldl_cons, if_neg ht, List.cons_bind]
      rw [ih]
      have hnil : ((tp.2.map (fun cp => (dev, tp.1, cp.1, cp.2))).filter
          (fun e => device_filter e.1 && dtype_filter e.2.1 && clock_filter e.2.2.1)) = [] := by
        rw [List.filter_eq_nil]
        intro e he
        obtain ⟨cp, -, rfl⟩ := List.mem_map.mp he
        simp [ht]
      simp [List.filter_append, hnil]

theorem plot_level1 (device_filter dtype_filter : Str → Bool) (clock_filter : Int → Bool)
    (delay_filter : Row → Bool) :
    ∀ (D : Data) (acc : List (List Int × List ℚ)),
      D.foldl (fun acc dp =>
          if device_filter dp.1 then
            dp.2.foldl (fun acc2 tp =>
              if dtype_filter tp.1 then
                tp.2.foldl (fun acc3 cp =>
                  if clock_filter cp.1 then acc3 ++ [plotSeries delay_filter cp.2] else acc3) acc2
              else acc2) acc
          else acc) acc =
        acc ++ ((entriesOf D).filter
            (fun e => device_filter e.1 && dtype_filter e.2.1 && clock_filter e.2.2.1)).map
          (fun e => plotSeries delay_filter e.2.2.2) := by
  intro D
  induction D with
  | nil => intro acc; simp [entriesOf]
  | cons dp rest ih =>
    intro acc
    have hent : entriesOf (dp :: rest) =
        (dp.2.bind (fun tp => tp.2.map (fun cp => (dp.1, tp.1, cp.1, cp.2)))) ++
          entriesOf rest := by
      simp [entriesOf]
    by_cases hd : device_filter dp.1 = true
    · simp only [List.foldl_cons, if_pos hd]
      rw [plot_level2 device_filter dtype_filter clock_filter delay_filter dp.1 hd, ih, hent]
      simp [List.filter_append, List.map_append, List.append_assoc]
    · simp only [List.foldl_cons, if_neg hd]
      rw [ih, hent]
      have hnil : ((dp.2.bind (fun tp => tp.2.map (fun cp => (dp.1, tp.1, cp.1, cp.2)))).filter
          (fun e => device_filter e.1 && dtype_filter e.2.1 && clock_filter e.2.2.1)) = [] := by
        rw [List.filter_eq_nil]
        intro e he
        obtain ⟨tp, -, he2⟩ := List.mem_bind.mp he
        obtain ⟨cp, -, rfl⟩ := List.mem_map.mp he2
        simp [hd]
      simp [List.filter_append, hnil]

/-- C5: for every choice of filters and every dict state, `plot_table`
emits one line series per `(device, unit, clock)` entry passing the
device, unit and clock filters, in stored order, and each series consists
of exactly the tuples of that entry passing the delay filter, in stored
order, with x coordinates the input delays and y coordinates the
measured delays. -/
theorem c5_plot_table (D : Data) (device_filter dtype_filter : Str → Bool)
    (clock_filter : Int → Bool) (delay_filter : Row → Bool) :
    plot_table D device_filter dtype_filter clock_filter delay_filter =
      ((entriesOf D).filter
          (fun e => device_filter e.1 && dtype_filter e.2.1 && clock_filter e.2.2.1)).map
        (fun e => plotSeries delay_filter e.2.2.2) := by
  have h := plot_level1 device_filter dtype_filter clock_filter delay_filter D []
  simpa [plot_table] using h

/-- Observable output of the main program: the printed summary table or a
rendered figure (its list of line series). -/
inductive Ev where
  | summaryEv : List SummaryLine → Ev
  | figureEv : List (List Int × List ℚ) → Ev
  deriving DecidableEq

/-- Program state of the `__main__` block: the global `DATA` dict and the
outputs produced so far, in order. -/
structure MState where
  data : Data
  events : List Ev
  deriving DecidableEq

/-- One statement of the `__main__` block that touches `DATA` or produces
output. -/
inductive MainOp where
  | readOp : List (Str × Str) → Str → MainOp
  | summaryOp : MainOp
  | figureOp : (Str → Bool) → (Str → Bool) → (Int → Bool) → (Row → Bool) → MainOp

/-- Execute one statement: `read_tables` replaces the dict, `dump_summary`
reads it and prints, `plot_table` reads it and renders; an exception stops
the script. -/
def execOp (s : MState) : MainOp → Option MState
  | MainOp.readOp files pat =>
    match read_tables pat s.data files with
    | none => none
    | some D => some { s with data := D }
  | MainOp.summaryOp =>
    match dump_summary s.data with
    | none => none
    | some ls => some { s with events := s.events ++ [Ev.summaryEv ls] }
  | MainOp.figureOp df tf cf delf =>
    some { s with events := s.events ++ [Ev.figureEv (plot_table s.data df tf cf delf)] }

/-- Run a statement list from a state. -/
def execOps : MState → List MainOp → Option MState
  | s, [] => some s
  | s, op :: ops =>
    match execOp s op with
    | none => none
    | some s2 => execOps s2 ops

/-- The `__main__` block (lines 65-136): read the data files, print the
summary, then render the four filtered figures, in that order. -/
def mainOps (files : List (Str × Str)) : List MainOp :=
  [MainOp.readOp files ("data_*".data),
   MainOp.summaryOp,
   MainOp.figureOp (fun _ => true) (fun t => decide (t = ['n', 's']))
     (fun c => decide ((c : ℚ) ≤ 16000000)) (fun d => decide (d.1 ≤ 10000)),
   MainOp.figureOp (fun _ => true) (fun t => decide (t = ['n', 's']))
     (fun c => decide ((16000000 : ℚ) < (c : ℚ))) (fun d => decide (d.1 ≤ 1000)),
   MainOp.figureOp (fun _ => true) (fun t => decide (t = ['n', 's']))
     (fun c => decide ((16000000 : ℚ) < (c : ℚ))) (fun d => decide (d.1 ≤ 10000)),
   MainOp.figureOp (fun _ => true) (fun t => decide (t = ['u', 's']))
     (fun c => decide ((c : ℚ) ≤ 16000000)) (fun d => decide (d.1 ≤ 1000))]

/-- Run the whole `__main__` block on a directory listing. -/
def runMain (files : List (Str × Str)) : Option MState :=
  execOps { data := [], events := [] } (mainOps files)

/-- C7: the pipeline stages run strictly in order: the dict is produced by
`read_tables` first, the summary output comes before every figure, every
figure is computed by `plot_table` from the same final dict, and the dict
held at the end is exactly the one `read_tables` returned, never modified
afterwards. -/
theorem c7_main_order (files : List (Str × Str)) (s : MState)
    (h : runMain files = some s) :
    ∃ D ls, read_tables ("data_*".data) [] files = some D ∧ dump_summary D = some ls ∧
      s.data = D ∧
      s.events = [Ev.summaryEv ls,
        Ev.figureEv (plot_table D (fun _ => true) (fun t => decide (t = ['n', 's']))
          (fun c => decide ((c : ℚ) ≤ 16000000)) (fun d => decide (d.1 ≤ 10000))),
        Ev.figureEv (plot_table D (fun _ => true) (fun t => decide (t = ['n', 's']))
          (fun c => decide ((16000000 : ℚ) < (c : ℚ))) (fun d => decide (d.1 ≤ 1000))),
        Ev.figureEv (plot_table D (fun _ => true) (fun t => decide (t = ['n', 's']))
          (fun c => decide ((16000000 : ℚ) < (c : ℚ))) (fun d => decide (d.1 ≤ 10000))),
        Ev.figureEv (plot_table D (fun _ => true) (fun t => decide (t = ['u', 's']))
          (fun c => decide ((c : ℚ) ≤ 16000000)) (fun d => decide (d.1 ≤ 1000)))] := by
  cases hrt : read_tables ("data_*".data) [] files with
  | none => simp [runMain, mainOps, execOps, execOp, hrt] at h
  | some D =>
    cases hds : dump_summary D with
    | none => simp [runMain, mainOps, execOps, execOp, hrt, hds] at h
    | some ls =>
      simp only [runMain, mainOps, execOps, execOp, hrt, hds, List.nil_append,
        List.cons_append, List.append_nil, Option.some.injEq] at h
      subst h
      exact ⟨D, ls, rfl, hds, rfl, rfl⟩

/-- The final state of a run of the `__main__` block on an empty
directory listing, witnessing C7. -/
def emptyRunState : MState :=
  { data := [],
    events := [Ev.summaryEv [], Ev.figureEv [], Ev.figureEv [], Ev.figureEv [], Ev.figureEv []] }

theorem c7_main_order_witness :
    ∃ D ls, read_tables ("data_*".data) [] [] = some D ∧ dump_summary D = some ls ∧
      emptyRunState.data = D ∧
      emptyRunState.events = [Ev.summaryEv ls,
        Ev.figureEv (plot_table D (fun _ => true) (fun t => decide (t = ['n', 's']))
          (fun c => decide ((c : ℚ) ≤ 16000000)) (fun d => decide (d.1 ≤ 10000))),
        Ev.figureEv (plot_table D (fun _ => true) (fun t => decide (t = ['n', 's']))
          (fun c => decide ((16000000 : ℚ) < (c : ℚ))) (fun d => decide (d.1 ≤ 1000))),
        Ev.figureEv (plot_table D (fun _ => true) (fun t => decide (t = ['n', 's']))
          (fun c => decide ((16000000 : ℚ) < (c : ℚ))) (fun d => decide (d.1 ≤ 10000))),
        Ev.figureEv (plot_table D (fun _ => true) (fun t => decide (t = ['u', 's']))
          (fun c => decide ((c : ℚ) ≤ 16000000)) (fun d => decide (d.1 ≤ 1000)))] :=
  c7_main_order [] emptyRunState rfl

namespace Copy2

/-!
Embedding of the second copy of the script,
`docs/.../modm-delay/plot_delays.py` with six `docs` path components. Its
function section (lines 1-62) is transcribed independently here; only the
`__main__` annotation calls differ between the two files.
-/

/-- The helper `conv` of the second copy's `parse_table` (lines 23-24). -/
def conv (dtype : Str) (clock : Int) (delay cycles : Int) : Option ℚ :=
  if clock = 0 then none
  else some ((cycles : ℚ) * (if dtype = ['n', 's'] then 1000000000 else 1000000) / (clock : ℚ))

/-- Tuple of one data line of the second copy (lines 27-28). -/
def rowOfFields (dtype : Str) (clock : Int) (fields : List Str) : Option Row :=
  match optMap pyInt fields with
  | none => none
  | some vals =>
    match vals[0]? with
    | none => none
    | some v0 =>
      match vals[2]? with
      | none => none
      | some v2 =>
        match Copy2.conv dtype clock v0 v2 with
        | none => none
        | some m => some (v0, m, v2)

/-- One data line of the second copy (lines 27-28). -/
def parseRow (dtype : Str) (clock : Int) (line : Str) : Option Row :=
  Copy2.rowOfFields dtype clock (lineFields line)

/-- The second copy's `parse_table` (lines 19-30). -/
def parse_table (text : Str) : Option (Str × Int × List Row) :=
  match (splitlines (pyStrip text))[0]? with
  | none => none
  | some line0 =>
    match (pySplit3 ' ' '=' ' ' line0)[1]? with
    | none => none
    | some clockStr =>
      match pyInt clockStr with
      | none => none
      | some clock =>
        match optMap (Copy2.parseRow ((line0.drop 12).take 2) clock)
            ((splitlines (pyStrip text)).drop 3) with
        | none => none
        | some rows => some ((line0.drop 12).take 2, clock, rows)

/-- One file of the second copy's `read_tables` (lines 15-17). -/
def processTables (device : Str) : Data → List Str → Option Data
  | D, [] => some D
  | D, t :: ts =>
    match Copy2.parse_table t with
    | none => none
    | some (dt, c, rows) => Copy2.processTables device (dataSet D device dt c rows) ts

/-- The second copy's `read_tables` (lines 9-17). -/
def read_tables (pat : Str) : Data → List (Str × Str) → Option Data
  | D, [] => some D
  | D, (name, content) :: fs =>
    if globMatch pat name then
      match Copy2.processTables (deviceName name) D (pySplit2 '\n' '\n' content) with
      | none => none
      | some D2 => Copy2.read_tables pat D2 fs
    else Copy2.read_tables pat D fs

/-- One series of the second copy's `plot_table` (lines 42-43). -/
def plotSeries (delay_filter : Row → Bool) (rows : List Row) : List Int × List ℚ :=
  ((rows.filter delay_filter).map (fun r => r.1),
   (rows.filter delay_filter).map (fun r => r.2.1))

/-- The second copy's `plot_table` (lines 33-43). -/
def plot_table (D : Data) (device_filter : Str → Bool) (dtype_filter : Str → Bool)
    (clock_filter : Int → Bool) (delay_filter : Row → Bool) : List (List Int × List ℚ) :=
  D.foldl (fun acc dp =>
    if device_filter dp.1 then
      dp.2.foldl (fun acc2 tp =>
        if dtype_filter tp.1 then
          tp.2.foldl (fun acc3 cp =>
            if clock_filter cp.1 then acc3 ++ [Copy2.plotSeries delay_filter cp.2] else acc3)
            acc2
        else acc2) acc
    else acc) []

/-- Initial accumulator of the second copy's `dump_summary` (lines 48-50). -/
def summInit : SummAcc :=
  { minC := 1000000000, maxC := 0, boot := 1000000000, high := 1000000000 }

/-- One inner iteration of the second copy's `dump_summary` (lines 52-58). -/
def summStep (acc : SummAcc) (c : Int) (rows : List Row) : Option SummAcc :=
  match pyMinInt (rows.map (fun r => r.2.2)) with
  | none => none
  | some mc =>
    some { minC := min acc.minC (c : ℚ), maxC := max acc.maxC (c : ℚ),
           boot := if (c : ℚ) ≤ 16000000 then min acc.boot (mc : ℚ) else acc.boot,
           high := if (c : ℚ) ≤ 16000000 then acc.high else min acc.high (mc : ℚ) }

/-- The second copy's loop over one unit's clocks (line 52). -/
def summClocks : SummAcc → ClockMap → Option SummAcc
  | acc, [] => some acc
  | acc, (c, rows) :: rest =>
    match Copy2.summStep acc c rows with
    | none => none
    | some a2 => Copy2.summClocks a2 rest

/-- The second copy's loop over a device's units (line 51). -/
def summDtypes : SummAcc → DtypeMap → Option SummAcc
  | acc, [] => some acc
  | acc, (_, cm) :: rest =>
    match Copy2.summClocks acc cm with
    | none => none
    | some a2 => Copy2.summDtypes a2 rest

/-- Per-device body of the second copy's `dump_summary` (lines 47-62). -/
def deviceSummary (dev : Str) (dts : DtypeMap) : Option SummaryLine :=
  match Copy2.summDtypes Copy2.summInit dts with
  | none => none
  | some acc =>
    if acc.minC = 0 ∨ acc.maxC = 0 then none
    else some { device := dev, bootCycles := acc.boot, highCycles := acc.high,
                bootNs := truncQ (acc.boot * 1000000000 / acc.minC),
                bootMHz := acc.minC / 1000000,
                highNs := truncQ (acc.high * 1000000000 / acc.maxC),
                highMHz := acc.maxC / 1000000 }

/-- The second copy's `dump_summary` (lines 45-62). -/
def dump_summary (D : Data) : Option (List SummaryLine) :=
  optMap (fun p => Copy2.deviceSummary p.1 p.2) D

/-- The second copy's `__main__` pipeline (lines 65-154): identical glob
pattern, stage order and figure filters; the two files differ only in
`plt` annotation calls, which produce no modelled output. -/
def mainOps (files : List (Str × Str)) : List MainOp :=
  [MainOp.readOp files ("data_*".data),
   MainOp.summaryOp,
   MainOp.figureOp (fun _ => true) (fun t => decide (t = ['n', 's']))
     (fun c => decide ((c : ℚ) ≤ 16000000)) (fun d => decide (d.1 ≤ 10000)),
   MainOp.figureOp (fun _ => true) (fun t => decide (t = ['n', 's']))
     (fun c => decide ((16000000 : ℚ) < (c : ℚ))) (fun d => decide (d.1 ≤ 1000)),
   MainOp.figureOp (fun _ => true) (fun t => decide (t = ['n', 's']))
     (fun c => decide ((16000000 : ℚ) < (c : ℚ))) (fun d => decide (d.1 ≤ 10000)),
   MainOp.figureOp (fun _ => true) (fun t => decide (t = ['u', 's']))
     (fun c => decide ((c : ℚ) ≤ 16000000)) (fun d => decide (d.1 ≤ 1000))]

end Copy2

theorem copy2_processTables_eq :
    ∀ (device : Str) (ts : List Str) (D : Data),
      Copy2.processTables device D ts = processTables device D ts := by
  intro device ts
  induction ts with
  | nil => intro D; rfl
  | cons t rest ih =>
    intro D
    simp only [Copy2.processTables, processTables]
    rw [show Copy2.parse_table = parse_table from rfl]
    cases h : parse_table t with
    | none => rfl
    | some r =>
      obtain ⟨dt, c, rows⟩ := r
      exact ih (dataSet D device dt c rows)

theorem copy2_read_tables_eq :
    ∀ (pat : Str) (files : List (Str × Str)) (D : Data),
      Copy2.read_tables pat D files = read_tables pat D files := by
  intro pat files
  induction files with
  | nil => intro D; rfl
  | cons f fs ih =>
    intro D
    obtain ⟨name, content⟩ := f
    simp only [Copy2.read_tables, read_tables]
    cases hm : globMatch pat name with
    | false => simp only [Bool.false_eq_true, if_neg Bool.false_ne_true]; exact ih D
    | true =>
      simp only [if_pos rfl]
      rw [copy2_processTables_eq (deviceName name) (pySplit2 '\n' '\n' content) D]
      cases hpt : processTables (deviceName name) D (pySplit2 '\n' '\n' content) with
      | none => rfl
      | some D2 => exact ih D2

theorem copy2_summClocks_eq :
    ∀ (cm : ClockMap) (acc : SummAcc), Copy2.summClocks acc cm = summClocks acc cm := by
  intro cm
  induction cm with
  | nil => intro acc; rfl
  | cons t rest ih =>
    obtain ⟨c, rows⟩ := t
    intro acc
    simp only [Copy2.summClocks, summClocks]
    rw [show Copy2.summStep = summStep from rfl]
    cases h : summStep acc c rows with
    | none => rfl
    | some a2 => exact ih a2

theorem copy2_summDtypes_eq :
    ∀ (dts : DtypeMap) (acc : SummAcc), Copy2.summDtypes acc dts = summDtypes acc dts := by
  intro dts
  induction dts with
  | nil => intro acc; rfl
  | cons d rest ih =>
    obtain ⟨dt0, cm⟩ := d
    intro acc
    simp only [Copy2.summDtypes, summDtypes]
    rw [copy2_summClocks_eq cm acc]
    cases h : summClocks acc cm with
    | none => rfl
    | some a2 => exact ih a2

theorem copy2_deviceSummary_eq :
    ∀ (dev : Str) (dts : DtypeMap), Copy2.deviceSummary dev dts = deviceSummary dev dts := by
  intro dev dts
  unfold Copy2.deviceSummary deviceSummary
  rw [show Copy2.summInit = summInit from rfl, copy2_summDtypes_eq dts summInit]

/-- C6: the two copies of the script differ only cosmetically: their
`parse_table`, `read_tables`, `plot_table` and `dump_summary` functions
are extensionally equal, returning identical results on every input, and
their `__main__` pipelines run the same stages with the same filters in
the same order, so the copies differ only in the figure annotations. -/
theorem c6_copies_equal :
    Copy2.parse_table = parse_table ∧
      Copy2.read_tables = read_tables ∧
      Copy2.plot_table = plot_table ∧
      Copy2.dump_summary = dump_summary ∧
      ∀ files, Copy2.mainOps files = mainOps files := by
  refine ⟨rfl, ?_, rfl, ?_, fun _ => rfl⟩
  · funext pat D files
    exact copy2_read_tables_eq pat files D
  · funext D
    unfold Copy2.dump_summary dump_summary
    have hfun : (fun p : Str × DtypeMap => Copy2.deviceSummary p.1 p.2) =
        (fun p : Str × DtypeMap => deviceSummary p.1 p.2) :=
      funext (fun p => copy2_deviceSummary_eq p.1 p.2)
    rw [hfun]
